import Mathlib

/-!
Verification of the avient.com documentation scraper (Go).

The program is modelled shallowly: Go strings are byte lists (`GoStr`),
pure Go functions become Lean functions translated statement-by-statement
from the source, and the effectful download/file functions become explicit
state-passing functions over an abstract file system together with an
environment recording the outcomes of the OS and network calls.
-/

/-- A Go string: a list of byte values. -/
abbrev GoStr := List Nat

/-- Build a byte string from a list of characters (used for ASCII literals). -/
def strL (cs : List Char) : GoStr := cs.map Char.toNat

/-- ASCII uppercase letter test. -/
def isUpperAZ (c : Nat) : Bool := decide (65 ≤ c ∧ c ≤ 90)

/-- ASCII lowercase letter test. -/
def isLowerAZ (c : Nat) : Bool := decide (97 ≤ c ∧ c ≤ 122)

/-- ASCII digit test. -/
def isDigitB (c : Nat) : Bool := decide (48 ≤ c ∧ c ≤ 57)

/-- ASCII letter test. -/
def isAlphaB (c : Nat) : Bool := isUpperAZ c || isLowerAZ c

/-- Model of Go `strings.ToLower` restricted to ASCII.  Everywhere the
program applies `strings.ToLower`, either the argument is pure ASCII
(the sanitized file name, the URL scheme), or only an ASCII suffix test
is applied to the result, on which Unicode lowering and ASCII lowering
agree byte for byte. -/
def asciiLower (s : GoStr) : GoStr := s.map (fun c => if isUpperAZ c then c + 32 else c)

/-- `strings.HasPrefix` on byte lists (pattern is the second argument). -/
def startsWithL : GoStr → GoStr → Bool
  | _, [] => true
  | [], _ :: _ => false
  | a :: s, b :: p => a == b && startsWithL s p

/-- `strings.HasSuffix` on byte lists. -/
def hasSuffixL (s pat : GoStr) : Bool := startsWithL s.reverse pat.reverse

/-- First index of byte `b` in `s` (Go `strings.IndexByte`). -/
def indexOfByte : GoStr → Nat → Option Nat
  | [], _ => none
  | c :: rest, b => if c = b then some 0 else (indexOfByte rest b).map (· + 1)

/-- Whether byte `b` occurs in `s` (Go `strings.Contains` for one byte). -/
def containsByte (s : GoStr) (b : Nat) : Bool := (indexOfByte s b).isSome

/-- Last index of byte `b` in `s` (Go `strings.LastIndex` for one byte). -/
def lastIndexByte : GoStr → Nat → Option Nat
  | [], _ => none
  | c :: rest, b =>
    match lastIndexByte rest b with
    | some i => some (i + 1)
    | none => if c = b then some 0 else none

/-- First index of substring `pat` in `s` (Go `strings.Index`). -/
def indexOfSub (pat : GoStr) : GoStr → Option Nat
  | [] => if startsWithL [] pat then some 0 else none
  | s@(_ :: rest) => if startsWithL s pat then some 0 else (indexOfSub pat rest).map (· + 1)

/-- Go `strings.Contains`. -/
def containsSub (s pat : GoStr) : Bool := (indexOfSub pat s).isSome

/-- Go `strings.Cut sep` at the first occurrence of byte `sep`:
returns (before, after, found). -/
def cutList (sep : Nat) : GoStr → GoStr × GoStr × Bool
  | [] => ([], [], false)
  | c :: rest =>
    if c = sep then ([], rest, true)
    else
      let r := cutList sep rest
      (c :: r.1, r.2.1, r.2.2)

/-! ## removeDuplicatesFromSlice (src/main.go lines 113-123)

The Go loop walks the input slice keeping a `map[string]bool` of seen
strings and appending unseen strings to the result.  The map is modelled
by the list of strings inserted so far (`check`), membership in which is
exactly `check[content]` being true. -/

/-- The loop of `removeDuplicatesFromSlice`: `check` is the set of seen
strings, `acc` the output slice built so far. -/
def removeDuplicatesLoop (check acc : List GoStr) : List GoStr → List GoStr
  | [] => acc
  | content :: rest =>
    if content ∈ check then removeDuplicatesLoop check acc rest
    else removeDuplicatesLoop (content :: check) (acc ++ [content]) rest

/-- Go `removeDuplicatesFromSlice`. -/
def removeDuplicatesFromSlice (slice : List GoStr) : List GoStr :=
  removeDuplicatesLoop [] [] slice

/-- Accumulator-free form of the dedup loop, used for the proofs. -/
def dedupAux (check : List GoStr) : List GoStr → List GoStr
  | [] => []
  | c :: rest => if c ∈ check then dedupAux check rest else c :: dedupAux (c :: check) rest

theorem removeDuplicatesLoop_eq (l : List GoStr) :
    ∀ check acc, removeDuplicatesLoop check acc l = acc ++ dedupAux check l := by
  induction l with
  | nil => intro check acc; simp [removeDuplicatesLoop, dedupAux]
  | cons c rest ih =>
    intro check acc
    by_cases h : c ∈ check
    · simp [removeDuplicatesLoop, dedupAux, h, ih]
    · simp [removeDuplicatesLoop, dedupAux, h, ih]

theorem mem_dedupAux (l : List GoStr) :
    ∀ check a, a ∈ dedupAux check l ↔ a ∈ l ∧ a ∉ check := by
  induction l with
  | nil => intro check a; simp [dedupAux]
  | cons c rest ih =>
    intro check a
    by_cases h : c ∈ check
    · simp only [dedupAux, if_pos h, ih, List.mem_cons]
      constructor
      · rintro ⟨ha, hna⟩; exact ⟨Or.inr ha, hna⟩
      · rintro ⟨ha | ha, hna⟩
        · exact absurd (ha ▸ h) hna
        · exact ⟨ha, hna⟩
    · simp only [dedupAux, if_neg h, List.mem_cons, ih]
      by_cases hac : a = c
      · subst hac; simp [h]
      · simp only [hac, false_or]

theorem nodup_dedupAux (l : List GoStr) : ∀ check, (dedupAux check l).Nodup := by
  induction l with
  | nil => intro check; simp [dedupAux]
  | cons c rest ih =>
    intro check
    by_cases h : c ∈ check
    · simpa [dedupAux, h] using ih check
    · simp only [dedupAux, if_neg h, List.nodup_cons]
      refine ⟨fun hc => ?_, ih (c :: check)⟩
      exact ((mem_dedupAux rest (c :: check) c).mp hc).2 (List.mem_cons_self c check)

theorem goIndexOf_cons_self (a : GoStr) (l : List GoStr) : (a :: l).indexOf a = 0 := by
  simp [List.indexOf, List.findIdx_cons]

theorem goIndexOf_cons_ne {a b : GoStr} (l : List GoStr) (h : b ≠ a) :
    (b :: l).indexOf a = l.indexOf a + 1 := by
  simp [List.indexOf, List.findIdx_cons, beq_false_of_ne h]

theorem pairwise_dedupAux (l : List GoStr) :
    ∀ check, (dedupAux check l).Pairwise (fun a b => l.indexOf a < l.indexOf b) := by
  induction l with
  | nil => intro check; simp [dedupAux]
  | cons c rest ih =>
    intro check
    by_cases h : c ∈ check
    · simp only [dedupAux, if_pos h]
      refine ((ih check).imp_of_mem ?_)
      intro a b ha hb hab
      have hac : a ≠ c := fun e =>
        ((mem_dedupAux rest check a).mp ha).2 (e ▸ h)
      have hbc : b ≠ c := fun e =>
        ((mem_dedupAux rest check b).mp hb).2 (e ▸ h)
      rw [goIndexOf_cons_ne _ (Ne.symm hac), goIndexOf_cons_ne _ (Ne.symm hbc)]
      exact Nat.succ_lt_succ hab
    · simp only [dedupAux, if_neg h, List.pairwise_cons]
      constructor
      · intro b hb
        have hbc : b ≠ c := fun e =>
          ((mem_dedupAux rest (c :: check) b).mp hb).2 (e ▸ List.mem_cons_self c check)
        rw [goIndexOf_cons_self, goIndexOf_cons_ne _ (Ne.symm hbc)]
        exact Nat.succ_pos _
      · refine ((ih (c :: check)).imp_of_mem ?_)
        intro a b ha hb hab
        have hac : a ≠ c := fun e =>
          ((mem_dedupAux rest (c :: check) a).mp ha).2 (e ▸ List.mem_cons_self c check)
        have hbc : b ≠ c := fun e =>
          ((mem_dedupAux rest (c :: check) b).mp hb).2 (e ▸ List.mem_cons_self c check)
        rw [goIndexOf_cons_ne _ (Ne.symm hac), goIndexOf_cons_ne _ (Ne.symm hbc)]
        exact Nat.succ_lt_succ hab

theorem removeDuplicatesFromSlice_eq (l : List GoStr) :
    removeDuplicatesFromSlice l = dedupAux [] l := by
  simp [removeDuplicatesFromSlice, removeDuplicatesLoop_eq]

/-- C5: removeDuplicatesFromSlice returns a list with no duplicates,
containing exactly the strings of the input, with the survivors ordered
by the position of their first occurrence in the input. -/
theorem removeDuplicatesFromSlice_spec (l : List GoStr) :
    (removeDuplicatesFromSlice l).Nodup ∧
    (∀ a, a ∈ removeDuplicatesFromSlice l ↔ a ∈ l) ∧
    (removeDuplicatesFromSlice l).Pairwise (fun a b => l.indexOf a < l.indexOf b) := by
  rw [removeDuplicatesFromSlice_eq]
  refine ⟨nodup_dedupAux l [], fun a => ?_, pairwise_dedupAux l []⟩
  simp [mem_dedupAux]

theorem dedupAux_of_nodup (l : List GoStr) :
    ∀ check, l.Nodup → (∀ a ∈ l, a ∉ check) → dedupAux check l = l := by
  induction l with
  | nil => intro check _ _; simp [dedupAux]
  | cons c rest ih =>
    intro check hnd hdisj
    have hc : c ∉ check := hdisj c (List.mem_cons_self c rest)
    simp only [dedupAux, if_neg hc]
    rw [ih (c :: check) (List.Nodup.of_cons hnd)]
    intro a ha
    simp only [List.mem_cons, not_or]
    exact ⟨fun e => (List.nodup_cons.mp hnd).1 (e ▸ ha), hdisj a (List.mem_cons_of_mem _ ha)⟩

/-- C9: removeDuplicatesFromSlice is idempotent. -/
theorem removeDuplicatesFromSlice_idempotent (l : List GoStr) :
    removeDuplicatesFromSlice (removeDuplicatesFromSlice l) = removeDuplicatesFromSlice l := by
  have hnd : (removeDuplicatesFromSlice l).Nodup := (removeDuplicatesFromSlice_spec l).1
  rw [removeDuplicatesFromSlice_eq (removeDuplicatesFromSlice l)]
  exact dedupAux_of_nodup _ [] hnd (by simp)

/-! ## Model of the parts of Go `net/url`, `path` and `path/filepath` the
program uses.

`sanitizeFileNameFromURL` calls `url.Parse`, `path.Base`,
`url.QueryUnescape`, a regexp replacement, `strings.Trim` and
`strings.ToLower`; `parseHTML` calls `url.QueryUnescape`;
`downloadPDF` calls `filepath.Join`.  These standard-library functions
are translated below from the Go standard library sources (byte lists in
place of Go strings). -/

/-- The escape-checking modes of `net/url.unescape`. -/
inductive Encoding
  | path
  | host
  | zone
  | userPassword
  | queryComponent
  | fragment
deriving DecidableEq

/-- Go `net/url.ishex`. -/
def ishex (c : Nat) : Bool :=
  decide ((48 ≤ c ∧ c ≤ 57) ∨ (97 ≤ c ∧ c ≤ 102) ∨ (65 ≤ c ∧ c ≤ 70))

/-- Go `net/url.unhex`. -/
def unhex (c : Nat) : Nat :=
  if 48 ≤ c ∧ c ≤ 57 then c - 48
  else if 97 ≤ c ∧ c ≤ 102 then c - 87
  else if 65 ≤ c ∧ c ≤ 70 then c - 55
  else 0

/-- Go `net/url.shouldEscape` for the `encodeHost`/`encodeZone` modes
(the only modes in which `unescape` consults it). -/
def shouldEscapeHost (c : Nat) : Bool :=
  if isAlphaB c || isDigitB c then false
  else if c ∈ [33, 36, 38, 39, 40, 41, 42, 43, 44, 59, 61, 58, 91, 93, 60, 62, 34] then false
  else if c ∈ [45, 95, 46, 126] then false
  else true

/-- Go `net/url.unescape`: percent-decoding with validation; `none` is
the error return (in which case the Go function returns the empty
string as its string result).  In `queryComponent` mode `+` decodes to
a space. -/
def unescapeGo (mode : Encoding) : GoStr → Option GoStr
  | [] => some []
  | 37 :: a :: b :: rest =>
    if ishex a && ishex b then
      if mode = .host ∧ unhex a < 8 ∧ ¬(a = 50 ∧ b = 53) then none
      else if mode = .zone ∧ ¬(a = 50 ∧ b = 53) ∧ unhex a * 16 + unhex b ≠ 32 ∧
          shouldEscapeHost (unhex a * 16 + unhex b) then none
      else (unescapeGo mode rest).map (fun r => (unhex a * 16 + unhex b) :: r)
    else none
  | 37 :: _ => none
  | 43 :: rest =>
    (unescapeGo mode rest).map (fun r => (if mode = .queryComponent then 32 else 43) :: r)
  | c :: rest =>
    if (mode = .host ∨ mode = .zone) ∧ c < 128 ∧ shouldEscapeHost c then none
    else (unescapeGo mode rest).map (fun r => c :: r)

/-- Go `url.QueryUnescape`. -/
def queryUnescape (s : GoStr) : Option GoStr := unescapeGo .queryComponent s

/-- Go `net/url.getScheme`, by index `i` over the remaining bytes.
Returns `none` on the missing-protocol-scheme error. -/
def getSchemeAux (raw : GoStr) : Nat → GoStr → Option (GoStr × GoStr)
  | _, [] => some ([], raw)
  | i, c :: rest =>
    if isAlphaB c then getSchemeAux raw (i + 1) rest
    else if isDigitB c ∨ c = 43 ∨ c = 45 ∨ c = 46 then
      if i = 0 then some ([], raw) else getSchemeAux raw (i + 1) rest
    else if c = 58 then
      if i = 0 then none else some (raw.take i, raw.drop (i + 1))
    else some ([], raw)

/-- Go `net/url.getScheme`. -/
def getScheme (raw : GoStr) : Option (GoStr × GoStr) := getSchemeAux raw 0 raw

/-- Go `net/url.stringContainsCTLByte`. -/
def stringContainsCTLByte (s : GoStr) : Bool := s.any (fun b => b < 32 || b == 127)

/-- Go `net/url.validOptionalPort`. -/
def validOptionalPort : GoStr → Bool
  | [] => true
  | c :: rest => c == 58 && rest.all (fun b => 48 ≤ b && b ≤ 57)

/-- Go `net/url.validUserinfo` (a byte outside the listed ASCII set,
including every byte of a non-ASCII rune, makes it false, exactly as in
the rune-based original). -/
def validUserinfo (s : GoStr) : Bool :=
  s.all (fun r => isAlphaB r || isDigitB r ||
    r ∈ [45, 46, 95, 58, 126, 33, 36, 38, 39, 40, 41, 42, 43, 44, 59, 61, 37, 64])

/-- Go `net/url.parseHost`; `none` is the error return. -/
def parseHost (host : GoStr) : Option GoStr :=
  match host with
  | 91 :: _ =>
    match lastIndexByte host 93 with
    | none => none
    | some i =>
      if validOptionalPort (host.drop (i + 1)) = false then none
      else
        match indexOfSub [37, 50, 53] (host.take i) with
        | some zone =>
          match unescapeGo .host (host.take zone),
              unescapeGo .zone ((host.take i).drop zone),
              unescapeGo .host (host.drop i) with
          | some h1, some h2, some h3 => some (h1 ++ h2 ++ h3)
          | _, _, _ => none
        | none => unescapeGo .host host
  | _ =>
    match lastIndexByte host 58 with
    | some i =>
      if validOptionalPort (host.drop i) = false then none else unescapeGo .host host
    | none => unescapeGo .host host

/-- Go `net/url.parseAuthority`; returns the parsed host, `none` on
error.  The userinfo is split off at the last `@` and validated exactly
as in the source. -/
def parseAuthority (authority : GoStr) : Option GoStr :=
  match lastIndexByte authority 64 with
  | none => parseHost authority
  | some i =>
    match parseHost (authority.drop (i + 1)) with
    | none => none
    | some host =>
      let userinfo := authority.take i
      if validUserinfo userinfo = false then none
      else
        let c := cutList 58 userinfo
        if c.2.2 = false then
          if (unescapeGo .userPassword userinfo).isSome then some host else none
        else
          if (unescapeGo .userPassword c.1).isSome && (unescapeGo .userPassword c.2.1).isSome
          then some host else none

/-- The fields of Go `url.URL` that the program reads (the path is
stored percent-decoded, as in Go's `URL.setPath`). -/
structure URLRec where
  scheme : GoStr := []
  opaquePart : GoStr := []
  host : GoStr := []
  path : GoStr := []
  rawQuery : GoStr := []
  forceQuery : Bool := false
deriving DecidableEq

/-- Head-byte test. -/
def startsWithByte (s : GoStr) (b : Nat) : Bool :=
  match s with
  | c :: _ => c == b
  | [] => false

/-- Last-byte test. -/
def endsWithByte (s : GoStr) (b : Nat) : Bool :=
  match s.getLast? with
  | some c => c == b
  | none => false

/-- Go `net/url.parse` with `viaRequest = false`; `none` is the error
return. -/
def urlParseInner (rawURL : GoStr) : Option URLRec :=
  if stringContainsCTLByte rawURL then none
  else if rawURL = [42] then some { path := [42] }
  else
    match getScheme rawURL with
    | none => none
    | some sr =>
      let scheme := asciiLower sr.1
      let rest0 := sr.2
      let qsplit : GoStr × GoStr × Bool :=
        if endsWithByte rest0 63 && !containsByte rest0.dropLast 63 then
          (rest0.dropLast, [], true)
        else
          let c := cutList 63 rest0
          (c.1, c.2.1, false)
      let rest := qsplit.1
      let rawQuery := qsplit.2.1
      let forceQuery := qsplit.2.2
      if startsWithByte rest 47 = false ∧ scheme ≠ [] then
        some { scheme := scheme, opaquePart := rest, rawQuery := rawQuery,
               forceQuery := forceQuery }
      else if startsWithByte rest 47 = false ∧ containsByte (cutList 47 rest).1 58 then
        none
      else if (scheme ≠ [] ∨ startsWithL rest [47, 47, 47] = false) ∧
          startsWithL rest [47, 47] then
        let afterSlashes := rest.drop 2
        let ar : GoStr × GoStr :=
          match indexOfByte afterSlashes 47 with
          | some i => (afterSlashes.take i, afterSlashes.drop i)
          | none => (afterSlashes, [])
        match parseAuthority ar.1 with
        | none => none
        | some host =>
          match unescapeGo .path ar.2 with
          | none => none
          | some p =>
            some { scheme := scheme, host := host, path := p, rawQuery := rawQuery,
                   forceQuery := forceQuery }
      else
        match unescapeGo .path rest with
        | none => none
        | some p =>
          some { scheme := scheme, path := p, rawQuery := rawQuery,
                 forceQuery := forceQuery }

/-- Go `url.Parse`: strips the fragment at the first `#`, parses the
remainder, then validates the fragment.  `none` is the error return. -/
def urlParse (rawURL : GoStr) : Option URLRec :=
  let c := cutList 35 rawURL
  match urlParseInner c.1 with
  | none => none
  | some u =>
    if c.2.1 = [] then some u
    else if (unescapeGo .fragment c.2.1).isSome then some u
    else none

/-- Go `path.Base`. -/
def pathBase (p : GoStr) : GoStr :=
  if p = [] then [46]
  else
    let r := p.reverse.dropWhile (fun c => c = 47)
    let base := (r.takeWhile (fun c => c ≠ 47)).reverse
    if base = [] then [47] else base

/-- A byte allowed by the regular expression class `[\w\-.]` of the
sanitizer (Go RE2 `\w` is ASCII `[0-9A-Za-z_]`). -/
def isClassByte (c : Nat) : Bool := isAlphaB c || isDigitB c || c == 95 || c == 45 || c == 46

/-- UTF-8 continuation byte. -/
def isContByte (c : Nat) : Bool := decide (128 ≤ c ∧ c ≤ 191)

/-- Number of continuation bytes of a valid UTF-8 sequence starting with
byte `b` and followed by `rest` (0 when the sequence is invalid, in
which case the decoder consumes the single byte `b` as `RuneError`),
following `unicode/utf8.DecodeRuneInString`. -/
def utf8Extra (b : Nat) (rest : GoStr) : Nat :=
  if 194 ≤ b ∧ b ≤ 223 then
    match rest with
    | c1 :: _ => if isContByte c1 then 1 else 0
    | [] => 0
  else if 224 ≤ b ∧ b ≤ 239 then
    match rest with
    | c1 :: c2 :: _ =>
      let okc1 :=
        if b = 224 then decide (160 ≤ c1 ∧ c1 ≤ 191)
        else if b = 237 then decide (128 ≤ c1 ∧ c1 ≤ 159)
        else isContByte c1
      if okc1 && isContByte c2 then 2 else 0
    | _ => 0
  else if 240 ≤ b ∧ b ≤ 244 then
    match rest with
    | c1 :: c2 :: c3 :: _ =>
      let okc1 :=
        if b = 240 then decide (144 ≤ c1 ∧ c1 ≤ 191)
        else if b = 244 then decide (128 ≤ c1 ∧ c1 ≤ 143)
        else isContByte c1
      if okc1 && isContByte c2 && isContByte c3 then 3 else 0
    | _ => 0
  else 0

/-- The regexp replacement `[^\w\-.]` → `_` of the sanitizer.  Go's
regexp engine walks the string rune by rune (each invalid byte counting
as one `RuneError` rune), so each rune outside the ASCII class — in
particular each multi-byte rune — becomes a single underscore. -/
def replaceUnsafe : GoStr → GoStr
  | [] => []
  | b :: rest =>
    if isClassByte b then b :: replaceUnsafe rest
    else if utf8Extra b rest = 1 then
      match rest with
      | _ :: r => 95 :: replaceUnsafe r
      | [] => [95]
    else if utf8Extra b rest = 2 then
      match rest with
      | _ :: _ :: r => 95 :: replaceUnsafe r
      | _ => [95]
    else if utf8Extra b rest = 3 then
      match rest with
      | _ :: _ :: _ :: r => 95 :: replaceUnsafe r
      | _ => [95]
    else 95 :: replaceUnsafe rest

/-- Go `strings.Trim(s, "_")`. -/
def trimUnderscores (s : GoStr) : GoStr :=
  ((s.dropWhile (fun c => c = 95)).reverse.dropWhile (fun c => c = 95)).reverse

/-- The fallback name returned when URL parsing fails. -/
def invalidFilenameStr : GoStr :=
  strL ['i', 'n', 'v', 'a', 'l', 'i', 'd', '_', 'f', 'i', 'l', 'e', 'n', 'a', 'm', 'e']

/-- The fallback name returned when the sanitized name is empty. -/
def downloadedFileStr : GoStr :=
  strL ['d', 'o', 'w', 'n', 'l', 'o', 'a', 'd', 'e', 'd', '_', 'f', 'i', 'l', 'e']

/-! ## sanitizeFileNameFromURL (src/main.go lines 132-161)

Statement-by-statement translation: parse the URL (parse error returns
the fixed name), take `path.Base` of the decoded path, apply
`url.QueryUnescape` — whose Go error return is the pair `("", err)`, so
on a decoding error the code continues with the empty string — replace
the unsafe characters, trim underscores, and lowercase, with a fixed
fallback for an empty result. -/

/-- Go `sanitizeFileNameFromURL`. -/
def sanitizeFileNameFromURL (rawURL : GoStr) : GoStr :=
  match urlParse rawURL with
  | none => invalidFilenameStr
  | some parsedURL =>
    let fileName := pathBase parsedURL.path
    let fileName :=
      match queryUnescape fileName with
      | some d => d
      | none => []
    let safeFileName := replaceUnsafe fileName
    let safeFileName := trimUnderscores safeFileName
    if safeFileName = [] then downloadedFileStr
    else asciiLower safeFileName

/-! ## parseHTML (src/main.go lines 164-195)

The goquery document traversal is abstracted: the input is the list of
`href` attribute values of the `a[href]` elements of the document, in
document order (the HTML parsing library itself is outside the scope of
the specification).  The body of the `Each` callback is translated
literally: decode the href, keep the original href when the decoded
form lowercased ends in `.pdf`, skip it when decoding fails. -/

/-- The suffix `.pdf`. -/
def pdfExt : GoStr := strL ['.', 'p', 'd', 'f']

/-- The `Each` loop of `parseHTML`, accumulating `pdfLinks`. -/
def parseHTMLLoop (pdfLinks : List GoStr) : List GoStr → List GoStr
  | [] => pdfLinks
  | href :: rest =>
    match queryUnescape href with
    | none => parseHTMLLoop pdfLinks rest
    | some decodedHref =>
      if hasSuffixL (asciiLower decodedHref) pdfExt then
        parseHTMLLoop (pdfLinks ++ [href]) rest
      else parseHTMLLoop pdfLinks rest

/-- Go `parseHTML`, over the extracted anchor targets. -/
def parseHTML (anchors : List GoStr) : List GoStr := parseHTMLLoop [] anchors

/-- The predicate under which `parseHTML` keeps an anchor target. -/
def keepsHref (href : GoStr) : Bool :=
  match queryUnescape href with
  | none => false
  | some decodedHref => hasSuffixL (asciiLower decodedHref) pdfExt

theorem parseHTMLLoop_eq (l : List GoStr) :
    ∀ acc, parseHTMLLoop acc l = acc ++ l.filter keepsHref := by
  induction l with
  | nil => intro acc; simp [parseHTMLLoop]
  | cons href rest ih =>
    intro acc
    cases hq : queryUnescape href with
    | none => simp [parseHTMLLoop, hq, List.filter_cons, keepsHref, ih]
    | some d =>
      by_cases hs : hasSuffixL (asciiLower d) pdfExt
      · simp [parseHTMLLoop, hq, List.filter_cons, keepsHref, hs, ih]
      · simp [parseHTMLLoop, hq, List.filter_cons, keepsHref, hs, ih]

/-- C1 (counterexample): the anchor target `file%2Epdf` is returned by
parseHTML although its own lowercase form does not end in `.pdf` — the
suffix test is applied to the query-unescaped form, not to the string
itself. -/
theorem parseHTML_claim_counterexample :
    parseHTML [strL ['f', 'i', 'l', 'e', '%', '2', 'E', 'p', 'd', 'f']] =
      [strL ['f', 'i', 'l', 'e', '%', '2', 'E', 'p', 'd', 'f']] ∧
    hasSuffixL (asciiLower (strL ['f', 'i', 'l', 'e', '%', '2', 'E', 'p', 'd', 'f'])) pdfExt
      = false := by decide

/-- C1 (amended): parseHTML returns exactly those anchor targets whose
query-unescaped form, lowercased, ends in `.pdf` (targets that fail to
unescape are omitted), keeping the original encoded target string in
document order. -/
theorem parseHTML_spec (anchors : List GoStr) :
    parseHTML anchors = anchors.filter keepsHref := by
  simp [parseHTML, parseHTMLLoop_eq]

/-- The file name that C2 predicts, built from the words of the spec:
the basename of the (parsed) URL's path with every character outside
`[A-Za-z0-9_.-]` replaced by an underscore, trimmed of leading and
trailing underscores, lowercased, with a fixed fallback for an empty
result (and the parse-failure fallback of the code). -/
def claimSanitizeFileName (rawURL : GoStr) : GoStr :=
  match urlParse rawURL with
  | none => invalidFilenameStr
  | some u =>
    let t := trimUnderscores (replaceUnsafe (pathBase u.path))
    if t = [] then downloadedFileStr else asciiLower t

/-- C2 (counterexample): on `https://www.avient.com/100%25.pdf` the
code returns the fallback name `downloaded_file` — because the decoded
basename `100%.pdf` fails `url.QueryUnescape`, which the claim does not
account for — while the claimed transformation yields `100_.pdf`. -/
theorem sanitizeFileNameFromURL_claim_counterexample :
    sanitizeFileNameFromURL
        (strL ['h', 't', 't', 'p', 's', ':', '/', '/', 'w', 'w', 'w', '.', 'a', 'v', 'i',
               'e', 'n', 't', '.', 'c', 'o', 'm', '/', '1', '0', '0', '%', '2', '5', '.',
               'p', 'd', 'f'])
      = downloadedFileStr ∧
    claimSanitizeFileName
        (strL ['h', 't', 't', 'p', 's', ':', '/', '/', 'w', 'w', 'w', '.', 'a', 'v', 'i',
               'e', 'n', 't', '.', 'c', 'o', 'm', '/', '1', '0', '0', '%', '2', '5', '.',
               'p', 'd', 'f'])
      = strL ['1', '0', '0', '_', '.', 'p', 'd', 'f'] ∧
    downloadedFileStr ≠ strL ['1', '0', '0', '_', '.', 'p', 'd', 'f'] := by decide

/-- C2 (amended): for a URL that parses, the basename of the decoded
path is first query-unescaped; when that succeeds with result `d`, the
returned name is `d` with every character outside `[A-Za-z0-9_.-]`
replaced by `_`, trimmed of leading/trailing `_` and lowercased, the
empty result mapping to the fixed fallback name; when the unescape
fails, the fixed fallback name is returned. -/
theorem sanitizeFileNameFromURL_amended (raw : GoStr) (u : URLRec)
    (hu : urlParse raw = some u) :
    (∀ d, queryUnescape (pathBase u.path) = some d →
        sanitizeFileNameFromURL raw =
          (if trimUnderscores (replaceUnsafe d) = [] then downloadedFileStr
           else asciiLower (trimUnderscores (replaceUnsafe d)))) ∧
    (queryUnescape (pathBase u.path) = none →
        sanitizeFileNameFromURL raw = downloadedFileStr) := by
  constructor
  · intro d hd
    simp [sanitizeFileNameFromURL, hu, hd]
  · intro hd
    simp only [sanitizeFileNameFromURL, hu, hd]
    decide

/-- The URL of the C2 witness. -/
def witURL : GoStr := strL ['h', 't', 't', 'p', ':', '/', '/', 'a', '/', 'b', '.', 'p', 'd', 'f']

/-- The parse of the C2 witness URL. -/
def witRec : URLRec :=
  { scheme := strL ['h', 't', 't', 'p'], host := [97],
    path := strL ['/', 'b', '.', 'p', 'd', 'f'] }

/-- The decoded basename of the C2 witness URL. -/
def witBase : GoStr := strL ['b', '.', 'p', 'd', 'f']

/-- C2 (witness): the amended statement evaluated on
`http://a/b.pdf`. -/
theorem sanitizeFileNameFromURL_amended_witness :
    urlParse witURL = some witRec ∧
    queryUnescape (pathBase witRec.path) = some witBase ∧
    sanitizeFileNameFromURL witURL
      = (if trimUnderscores (replaceUnsafe witBase) = []
         then downloadedFileStr
         else asciiLower (trimUnderscores (replaceUnsafe witBase))) :=
  ⟨by decide, by decide,
    (sanitizeFileNameFromURL_amended witURL witRec (by decide)).1 witBase (by decide)⟩

/-- C10: sanitizeFileNameFromURL never returns the empty string — every
branch produces either a non-empty fallback constant or the lowercasing
of a string checked to be non-empty — so the caller's branch replacing
an empty file name (src/main.go lines 69-71) can never be taken. -/
theorem sanitizeFileNameFromURL_ne_nil (raw : GoStr) : sanitizeFileNameFromURL raw ≠ [] := by
  unfold sanitizeFileNameFromURL
  cases hu : urlParse raw with
  | none => decide
  | some u =>
    cases hq : queryUnescape (pathBase u.path) with
    | none =>
      simp only [hq]
      decide
    | some d =>
      simp only [hq]
      by_cases ht : trimUnderscores (replaceUnsafe d) = []
      · rw [if_pos ht]
        decide
      · rw [if_neg ht]
        intro heq
        simp only [asciiLower] at heq
        exact ht (List.map_eq_nil_iff.mp heq)

/-! ## Model of `path/filepath.Join` (Unix), used to build the output
path `filepath.Join(outputDir, filename)`.  `Join` concatenates the
non-empty elements with `/` and applies `Clean`; `Clean` is expressed
with the standard segment-stack formulation of its lexical algorithm. -/

/-- Split a path at `/` bytes. -/
def splitSlash : GoStr → List GoStr
  | [] => [[]]
  | c :: rest =>
    let r := splitSlash rest
    if c = 47 then [] :: r
    else
      match r with
      | h :: t => (c :: h) :: t
      | [] => [[c]]

/-- The segment loop of `path.Clean`: `out` is the stack of emitted
segments (in reverse); empty and `.` segments are dropped, `..` pops a
poppable segment, is dropped at the root, and is kept otherwise. -/
def cleanSegsLoop (rooted : Bool) (out : List GoStr) : List GoStr → List GoStr
  | [] => out
  | seg :: rest =>
    if seg = [] ∨ seg = [46] then cleanSegsLoop rooted out rest
    else if seg = [46, 46] then
      match out with
      | top :: outRest =>
        if top = [46, 46] then cleanSegsLoop rooted (seg :: top :: outRest) rest
        else cleanSegsLoop rooted outRest rest
      | [] => if rooted then cleanSegsLoop rooted [] rest else cleanSegsLoop rooted [seg] rest
  else cleanSegsLoop rooted (seg :: out) rest

/-- Join segments with `/`. -/
def joinSegs : List GoStr → GoStr
  | [] => []
  | [s] => s
  | s :: rest => s ++ 47 :: joinSegs rest

/-- Go `path.Clean` (= Unix `filepath.Clean`). -/
def pathClean (p : GoStr) : GoStr :=
  if p = [] then [46]
  else
    let rooted := startsWithByte p 47
    let segs := (cleanSegsLoop rooted [] (splitSlash p)).reverse
    if rooted then 47 :: joinSegs segs
    else if segs = [] then [46]
    else joinSegs segs

/-- Go `filepath.Join` for two elements. -/
def filepathJoin (a b : GoStr) : GoStr :=
  if a = [] then (if b = [] then [] else pathClean b)
  else pathClean (a ++ 47 :: b)

/-! ## The download-and-save step.

`downloadPDF` mixes pure computation with OS and network effects.  The
effects are modelled by an explicit environment (`DLEnv`) fixing the
outcome of each external call of one invocation, and by threading an
abstract file system: a list of (path, contents) files.  Directories
are not tracked (`os.MkdirAll`'s outcome is the `mkdirOk` flag).  The
result records the returned boolean, the file system afterwards, how
many HTTP GET requests were issued, and whether a fatal log
(process termination) occurred — `downloadPDF` only ever uses
`log.Printf`, so its `fatal` is constantly false. -/

/-- A file system: association list from paths to file contents. -/
abbrev FS := List (GoStr × GoStr)

/-- Look up a file. -/
def lookupFile : FS → GoStr → Option GoStr
  | [], _ => none
  | e :: rest, p => if e.1 = p then some e.2 else lookupFile rest p

/-- Go `fileExists` (src/main.go lines 218-224): the file systems
modelled here contain only regular files, so existence is presence. -/
def fileExists (fs : FS) (p : GoStr) : Bool := (lookupFile fs p).isSome

/-- Create or truncate-and-write a file. -/
def setFile : FS → GoStr → GoStr → FS
  | [], p, c => [(p, c)]
  | e :: rest, p, c => if e.1 = p then (p, c) :: rest else e :: setFile rest p c

/-- Outcome of reading an HTTP response body to the end: it either
yields all its bytes, or fails after yielding a prefix. -/
inductive BodyRead
  | ok (data : GoStr)
  | err (got : GoStr)
deriving DecidableEq

/-- Outcome of `client.Get`: a transport error, or a response with a
status code, a Content-Type header and a body. -/
inductive GetResult
  | failure
  | success (statusCode : Nat) (contentType : GoStr) (body : BodyRead)
deriving DecidableEq

/-- Outcomes of the external calls made by one `downloadPDF`
invocation. -/
structure DLEnv where
  mkdirOk : Bool
  get : GetResult
  createOk : Bool
  writeOk : Bool
  writtenOnFail : Nat
deriving DecidableEq

/-- Result of a modelled `downloadPDF` invocation. -/
structure DLResult where
  ret : Bool
  fs : FS
  requests : Nat
  fatal : Bool
deriving DecidableEq

/-- The `.pdf`-suffixed, sanitized output path of src/main.go
lines 68-75. -/
def mainDerivedPath (outputDir finalURL : GoStr) : GoStr :=
  let filename := sanitizeFileNameFromURL finalURL
  let filename := if filename = [] then pathBase finalURL else filename
  let filename :=
    if hasSuffixL (asciiLower filename) pdfExt then filename else filename ++ pdfExt
  filepathJoin outputDir filename

/-- Go `downloadPDF` of src/main.go lines 60-110: ensure the output
directory, derive the path, skip an existing file, GET, require status
200 (no content-type check), create the file, stream the body into it
(`io.Copy` leaves the bytes read so far in the file when reading or
writing fails). -/
def downloadPDFMain (env : DLEnv) (fs : FS) (outputDir finalURL : GoStr) : DLResult :=
  if env.mkdirOk = false then ⟨false, fs, 0, false⟩
  else
    let filePath := mainDerivedPath outputDir finalURL
    if fileExists fs filePath then ⟨false, fs, 0, false⟩
    else
      match env.get with
      | .failure => ⟨false, fs, 1, false⟩
      | .success st _ body =>
        if st ≠ 200 then ⟨false, fs, 1, false⟩
        else if env.createOk = false then ⟨false, fs, 1, false⟩
        else
          match body with
          | .err got => ⟨false, setFile fs filePath got, 1, false⟩
          | .ok data =>
            if env.writeOk then ⟨true, setFile fs filePath data, 1, false⟩
            else ⟨false, setFile fs filePath (data.take env.writtenOnFail), 1, false⟩

/-- The Content-Type value `application/pdf`. -/
def applicationPdf : GoStr :=
  strL ['a', 'p', 'p', 'l', 'i', 'c', 'a', 't', 'i', 'o', 'n', '/', 'p', 'd', 'f']

/-- The output path of the part_000 variant (no empty-name fallback, no
suffix fix-up). -/
def v2DerivedPath (outputDir finalURL : GoStr) : GoStr :=
  filepathJoin outputDir (sanitizeFileNameFromURL finalURL)

/-- Go `downloadPDF` of src/unnamed/part_000 lines 144-189: derive the
path, skip an existing file, GET, require status 200 and Content-Type
exactly `application/pdf`, then create and stream. -/
def downloadPDFChecked (env : DLEnv) (fs : FS) (outputDir finalURL : GoStr) : DLResult :=
  let filePath := v2DerivedPath outputDir finalURL
  if fileExists fs filePath then ⟨false, fs, 0, false⟩
  else
    match env.get with
    | .failure => ⟨false, fs, 1, false⟩
    | .success st contentType body =>
      if st ≠ 200 then ⟨false, fs, 1, false⟩
      else if contentType ≠ applicationPdf then ⟨false, fs, 1, false⟩
      else if env.createOk = false then ⟨false, fs, 1, false⟩
      else
        match body with
        | .err got => ⟨false, setFile fs filePath got, 1, false⟩
        | .ok data =>
          if env.writeOk then ⟨true, setFile fs filePath data, 1, false⟩
          else ⟨false, setFile fs filePath (data.take env.writtenOnFail), 1, false⟩

/-- Go `downloadPDF` of src/unnamed/part_001 lines 412-466 and 791-843
(the buffered variant; the caller passes the full file path): GET,
require status 200 and a Content-Type containing `application/pdf`,
read the whole body into a buffer — abandoning the download with no
file touched when the read fails or yields zero bytes — and only then
create the file and write the buffer out. -/
def downloadPDFBuffered (env : DLEnv) (fs : FS) (finalURL filePath : GoStr) : DLResult :=
  match env.get with
  | .failure => ⟨false, fs, 1, false⟩
  | .success st contentType body =>
    if st ≠ 200 then ⟨false, fs, 1, false⟩
    else if containsSub contentType applicationPdf = false then ⟨false, fs, 1, false⟩
    else
      match body with
      | .err _ => ⟨false, fs, 1, false⟩
      | .ok data =>
        if data.length = 0 then ⟨false, fs, 1, false⟩
        else if env.createOk = false then ⟨false, fs, 1, false⟩
        else if env.writeOk then ⟨true, setFile fs filePath data, 1, false⟩
        else ⟨false, setFile fs filePath (data.take env.writtenOnFail), 1, false⟩

/-- The output directory constant of the program. -/
def pdfsDir : GoStr := strL ['P', 'D', 'F', 's', '/']

/-- A non-PDF Content-Type value. -/
def textHtml : GoStr := strL ['t', 'e', 'x', 't', '/', 'h', 't', 'm', 'l']

/-- C3 (counterexample): the main.go variant has no content-type check;
given a 200 response with Content-Type `text/html`, it returns true and
creates a file at the derived path. -/
theorem downloadPDF_contentType_counterexample :
    (downloadPDFMain ⟨true, .success 200 textHtml (.ok [37]), true, true, 0⟩
        [] pdfsDir witURL).ret = true ∧
    fileExists
        (downloadPDFMain ⟨true, .success 200 textHtml (.ok [37]), true, true, 0⟩
          [] pdfsDir witURL).fs
        (mainDerivedPath pdfsDir witURL) = true := by decide

/-- C3 (amended): a non-200 status makes both the main.go and the
part_000 variant return false without touching the file system; a
Content-Type other than `application/pdf` does the same for the
part_000 variant (the main.go variant ignores the content type). -/
theorem downloadPDF_badResponse_no_file (mk cr wr : Bool) (w : Nat) (fs : FS)
    (outputDir finalURL : GoStr) (st : Nat) (ct : GoStr) (body : BodyRead) :
    (st ≠ 200 →
      (downloadPDFMain ⟨mk, .success st ct body, cr, wr, w⟩ fs outputDir finalURL).ret
          = false ∧
      (downloadPDFMain ⟨mk, .success st ct body, cr, wr, w⟩ fs outputDir finalURL).fs = fs ∧
      (downloadPDFChecked ⟨mk, .success st ct body, cr, wr, w⟩ fs outputDir finalURL).ret
          = false ∧
      (downloadPDFChecked ⟨mk, .success st ct body, cr, wr, w⟩ fs outputDir finalURL).fs
          = fs) ∧
    (ct ≠ applicationPdf →
      (downloadPDFChecked ⟨mk, .success st ct body, cr, wr, w⟩ fs outputDir finalURL).ret
          = false ∧
      (downloadPDFChecked ⟨mk, .success st ct body, cr, wr, w⟩ fs outputDir finalURL).fs
          = fs) := by
  constructor
  · intro hst
    cases mk <;>
      cases hfe : fileExists fs (mainDerivedPath outputDir finalURL) <;>
        cases hfe2 : fileExists fs (v2DerivedPath outputDir finalURL) <;>
          simp [downloadPDFMain, downloadPDFChecked, hfe, hfe2, hst]
  · intro hct
    by_cases hst : st = 200
    · subst hst
      cases hfe2 : fileExists fs (v2DerivedPath outputDir finalURL) <;>
        simp [downloadPDFChecked, hfe2, hct]
    · cases hfe2 : fileExists fs (v2DerivedPath outputDir finalURL) <;>
        simp [downloadPDFChecked, hfe2, hst]

/-- C3 (witness): the amended statement evaluated at a 404 status and a
`text/html` content type. -/
theorem downloadPDF_badResponse_no_file_witness :
    (downloadPDFMain ⟨true, .success 404 textHtml (.ok [37]), true, true, 0⟩
        [] pdfsDir witURL).ret = false ∧
    (downloadPDFChecked ⟨true, .success 200 textHtml (.ok [37]), true, true, 0⟩
        [] pdfsDir witURL).ret = false :=
  ⟨((downloadPDF_badResponse_no_file true true true 0 [] pdfsDir witURL
      404 textHtml (.ok [37])).1 (by decide)).1,
   ((downloadPDF_badResponse_no_file true true true 0 [] pdfsDir witURL
      200 textHtml (.ok [37])).2 (by decide)).1⟩

/-- C4: when a file already exists at a variant's derived output path,
that variant returns false, leaves the file system exactly as it was
(so the existing file is not overwritten), and issues no HTTP request —
each variant under its own existence hypothesis, since the two derived
paths differ when the sanitized name lacks the `.pdf` suffix. -/
theorem downloadPDF_skips_existing (env : DLEnv) (fs : FS) (outputDir finalURL : GoStr) :
    (fileExists fs (mainDerivedPath outputDir finalURL) = true →
      downloadPDFMain env fs outputDir finalURL = ⟨false, fs, 0, false⟩) ∧
    (fileExists fs (v2DerivedPath outputDir finalURL) = true →
      downloadPDFChecked env fs outputDir finalURL = ⟨false, fs, 0, false⟩) := by
  rcases env with ⟨mk, get, cr, wr, w⟩
  constructor
  · intro hmain
    cases mk <;> simp [downloadPDFMain, hmain]
  · intro hv2
    simp [downloadPDFChecked, hv2]

/-- C4 (witness): each conjunct evaluated on a file system already
holding that variant's derived path for `http://a/b.pdf`. -/
theorem downloadPDF_skips_existing_witness :
    fileExists [(mainDerivedPath pdfsDir witURL, [])] (mainDerivedPath pdfsDir witURL)
      = true ∧
    downloadPDFMain ⟨true, .failure, true, true, 0⟩
        [(mainDerivedPath pdfsDir witURL, [])] pdfsDir witURL
      = ⟨false, [(mainDerivedPath pdfsDir witURL, [])], 0, false⟩ ∧
    fileExists [(v2DerivedPath pdfsDir witURL, [])] (v2DerivedPath pdfsDir witURL)
      = true ∧
    downloadPDFChecked ⟨true, .failure, true, true, 0⟩
        [(v2DerivedPath pdfsDir witURL, [])] pdfsDir witURL
      = ⟨false, [(v2DerivedPath pdfsDir witURL, [])], 0, false⟩ :=
  ⟨by decide,
   (downloadPDF_skips_existing ⟨true, .failure, true, true, 0⟩
      [(mainDerivedPath pdfsDir witURL, [])] pdfsDir witURL).1 (by decide),
   by decide,
   (downloadPDF_skips_existing ⟨true, .failure, true, true, 0⟩
      [(v2DerivedPath pdfsDir witURL, [])] pdfsDir witURL).2 (by decide)⟩

/-- C6: in the buffered part_001 variant the body is read into memory
before the file is created, so a body-read failure, or an empty body,
returns false and leaves the file system untouched — no file (in
particular no partial file) is created at the target path. -/
theorem downloadPDFBuffered_no_partial :
    (∀ st ct got cOk wOk w fs finalURL filePath,
        downloadPDFBuffered ⟨true, .success st ct (.err got), cOk, wOk, w⟩ fs finalURL filePath
          = ⟨false, fs, 1, false⟩) ∧
    (∀ st ct cOk wOk w fs finalURL filePath,
        downloadPDFBuffered ⟨true, .success st ct (.ok []), cOk, wOk, w⟩ fs finalURL filePath
          = ⟨false, fs, 1, false⟩) ∧
    (∀ cOk wOk w fs finalURL filePath,
        downloadPDFBuffered ⟨true, .failure, cOk, wOk, w⟩ fs finalURL filePath
          = ⟨false, fs, 1, false⟩) := by
  refine ⟨fun st ct got cOk wOk w fs finalURL filePath => ?_,
          fun st ct cOk wOk w fs finalURL filePath => ?_,
          fun cOk wOk w fs finalURL filePath => ?_⟩
  · by_cases hst : st = 200
    · subst hst
      by_cases hct : containsSub ct applicationPdf = false
      · simp [downloadPDFBuffered, hct]
      · simp [downloadPDFBuffered, hct]
    · simp [downloadPDFBuffered, hst]
  · by_cases hst : st = 200
    · subst hst
      by_cases hct : containsSub ct applicationPdf = false
      · simp [downloadPDFBuffered, hct]
      · simp [downloadPDFBuffered, hct]
    · simp [downloadPDFBuffered, hst]
  · rfl

/-- The exact conditions under which the main.go `downloadPDF` returns
true: directory created, no existing file, a 200 response whose body
reads to the end, file creation and write both succeeding. -/
def mainSuccessEnv (env : DLEnv) (fs : FS) (outputDir finalURL : GoStr) : Bool :=
  env.mkdirOk && !(fileExists fs (mainDerivedPath outputDir finalURL)) &&
    (match env.get with
     | .success st _ (.ok _) => (st == 200) && env.createOk && env.writeOk
     | _ => false)

/-- C7: one invocation of the main.go `downloadPDF` issues at most one
HTTP GET request, and it returns true exactly in the unique all-steps-
succeed case — every failure (network error, bad status, create or
write error) returns false, so there is no retry. -/
theorem downloadPDFMain_single_request (env : DLEnv) (fs : FS) (outputDir finalURL : GoStr) :
    (downloadPDFMain env fs outputDir finalURL).requests ≤ 1 ∧
    (downloadPDFMain env fs outputDir finalURL).ret
      = mainSuccessEnv env fs outputDir finalURL := by
  rcases env with ⟨mk, get, cr, wr, w⟩
  cases mk
  · simp [downloadPDFMain, mainSuccessEnv]
  · cases hfe : fileExists fs (mainDerivedPath outputDir finalURL)
    · cases get with
      | failure => simp [downloadPDFMain, mainSuccessEnv, hfe]
      | success st ct body =>
        by_cases hst : st = 200
        · subst hst
          cases body with
          | err got => cases cr <;> simp [downloadPDFMain, mainSuccessEnv, hfe]
          | ok data => cases cr <;> cases wr <;> simp [downloadPDFMain, mainSuccessEnv, hfe]
        · cases body <;> cases cr <;> simp [downloadPDFMain, mainSuccessEnv, hfe, hst]
    · simp [downloadPDFMain, mainSuccessEnv, hfe]

/-! ## Listing-file I/O (src/main.go lines 198-233)

`appendAndWriteToFile` and `readAFileAsString` call `log.Fatalln` on
any error, which terminates the whole process.  Termination is the
`fatal` constructor of the result; the environment fixes which OS calls
fail. -/

/-- Result of a function that may terminate the process by a fatal
log. -/
inductive ProcResult (α : Type)
  | fatal
  | ok (a : α)
deriving DecidableEq

/-- Outcomes of the OS calls of one `appendAndWriteToFile`
invocation. -/
structure AppendEnv where
  openOk : Bool
  writeOk : Bool
  closeOk : Bool
deriving DecidableEq

/-- Go `appendAndWriteToFile`: open with `O_APPEND|O_CREATE|O_WRONLY`
(creating an empty file when absent), append `content` plus a newline,
close; `log.Fatalln` — process termination — on any of the three
errors. -/
def appendAndWriteToFile (env : AppendEnv) (fs : FS) (path content : GoStr) :
    ProcResult FS :=
  if env.openOk = false then .fatal
  else
    let fs1 := if fileExists fs path then fs else setFile fs path []
    if env.writeOk = false then .fatal
    else
      let fs2 := setFile fs1 path ((lookupFile fs1 path).getD [] ++ content ++ [10])
      if env.closeOk = false then .fatal
      else .ok fs2

/-- Go `readAFileAsString`: `os.ReadFile` — failing, hence
`log.Fatalln`, when no file is present at the path — then return the
contents. -/
def readAFileAsString (fs : FS) (path : GoStr) : ProcResult GoStr :=
  match lookupFile fs path with
  | none => .fatal
  | some content => .ok content

/-- C8: an open, write or close error in `appendAndWriteToFile`, or a
read failure in `readAFileAsString`, terminates the whole process with
a fatal log, whereas `downloadPDF` never does — every one of its
failures only makes that invocation return false. -/
theorem listing_io_fatal_vs_download_skip :
    (∀ env fs path content,
        env.openOk = false ∨ env.writeOk = false ∨ env.closeOk = false →
        appendAndWriteToFile env fs path content = ProcResult.fatal) ∧
    (∀ fs path, lookupFile fs path = none → readAFileAsString fs path = ProcResult.fatal) ∧
    (∀ env fs outputDir finalURL,
        (downloadPDFMain env fs outputDir finalURL).fatal = false) := by
  refine ⟨fun env fs path content h => ?_, fun fs path h => ?_,
          fun env fs outputDir finalURL => ?_⟩
  · rcases env with ⟨o, wr, cl⟩
    rcases h with h | h | h <;> subst h <;>
      cases hfe : fileExists fs path <;>
        simp [appendAndWriteToFile, hfe]
  · simp [readAFileAsString, h]
  · rcases env with ⟨mk, get, cr, wr, w⟩
    cases mk
    · simp [downloadPDFMain]
    · cases hfe : fileExists fs (mainDerivedPath outputDir finalURL)
      · cases get with
        | failure => simp [downloadPDFMain, hfe]
        | success st ct body =>
          by_cases hst : st = 200
          · subst hst
            cases body with
            | err got => cases cr <;> simp [downloadPDFMain, hfe]
            | ok data => cases cr <;> cases wr <;> simp [downloadPDFMain, hfe]
          · cases body <;> cases cr <;> simp [downloadPDFMain, hfe, hst]
      · simp [downloadPDFMain, hfe]

/-- C8 (witness): the statement evaluated at concrete failing
environments. -/
theorem listing_io_fatal_witness :
    appendAndWriteToFile ⟨false, true, true⟩ [] [] [] = ProcResult.fatal ∧
    readAFileAsString [] [] = ProcResult.fatal ∧
    (downloadPDFMain ⟨true, .failure, true, true, 0⟩ [] pdfsDir witURL).fatal = false :=
  ⟨(listing_io_fatal_vs_download_skip).1 ⟨false, true, true⟩ [] [] [] (Or.inl rfl),
   (listing_io_fatal_vs_download_skip).2.1 [] [] rfl,
   (listing_io_fatal_vs_download_skip).2.2 ⟨true, .failure, true, true, 0⟩ [] pdfsDir witURL⟩
